import Mathlib

/-!
# Verification of the Abratronix trending fetcher core

Shallow embedding of the scoring / dedup / ranking pipeline of
`src/fetcher/fetch.py`, together with theorems settling the frozen claims.

The scorer works over real numbers: Python's `math.log1p` raises
`ValueError` for arguments `≤ -1`, which we model by an `Option`-valued
`log1p`; `round(x, 2)` is modelled as integer rounding of `100 * x`.
The list pipeline (deduplication, ranking, percentile statistics) works
over items whose `traction_score` is a rational, so that it stays
executable and decidable on concrete inputs.
-/

namespace Abratronix

/-! ## Definitions: traction scoring (`compute_traction_score`) -/

noncomputable section Scoring

/-- The per-source trust weights table from `fetch.py` (`SOURCE_WEIGHTS`). -/
def SOURCE_WEIGHTS : List (String × ℝ) :=
  [("hackernews", 1.0), ("reddit", 0.85), ("github", 0.75),
   ("youtube", 0.65), ("news", 0.55)]

/-- `SOURCE_WEIGHTS.get(source, 0.5)`: dictionary lookup with default `0.5`. -/
def sourceWeight (source : String) : ℝ :=
  (SOURCE_WEIGHTS.lookup source).getD 0.5

/-- Python's `math.log1p x`, which raises `ValueError` when `x ≤ -1`
(modelled as `none`). -/
def log1p (x : ℝ) : Option ℝ :=
  if -1 < x then some (Real.log (1 + x)) else none

/-- Python's `round(x, 2)`: round to two decimal places. -/
def round2 (x : ℝ) : ℝ := (round (x * 100) : ℤ) / 100

/-- The weighted sum inside `compute_traction_score`, as a total real
function (it agrees with the code whenever no `log1p` call fails; the
final score is then `round2 (rawScore ... * 100)`). -/
def rawScore (source : String) (engagement comments hours_old ecap ccap : ℝ) : ℝ :=
  Real.log (1 + min engagement ecap) / Real.log (1 + ecap) * 0.40
    + Real.log (1 + min comments ccap) / Real.log (1 + ccap) * 0.20
    + Real.exp (-0.693 * max hours_old 0 / 12) * 0.25
    + sourceWeight source * 0.15

/-- `compute_traction_score` from `fetch.py`.  Each `log1p` call may fail
(Python `ValueError` on arguments `≤ -1`), in which case the whole call
fails. `hours_old` is clamped at `0`, the signals are capped with `min`,
and the weighted sum is scaled to `0..100` and rounded to two decimals. -/
def compute_traction_score (source : String)
    (engagement comments hours_old ecap ccap : ℝ) : Option ℝ := do
  let a ← log1p (min engagement ecap)
  let b ← log1p ecap
  let c ← log1p (min comments ccap)
  let d ← log1p ccap
  let eng_norm := a / b
  let cmt_norm := c / d
  let recency := Real.exp (-0.693 * max hours_old 0 / 12)
  let src_w := sourceWeight source
  some (round2 ((eng_norm * 0.40 + cmt_norm * 0.20 + recency * 0.25 + src_w * 0.15) * 100))

end Scoring

/-! ## Definitions: date parsing (`parse_date`) -/

/-- The ordered list of formats tried by `parse_date`. -/
def DATE_FORMATS : List String :=
  ["%a, %d %b %Y %H:%M:%S %z",
   "%Y-%m-%dT%H:%M:%S%z",
   "%Y-%m-%dT%H:%M:%SZ",
   "%Y-%m-%dT%H:%M:%S.%f%z",
   "%Y-%m-%d %H:%M:%S",
   "%Y%m%d"]

/-- The `for fmt in [...]` loop of `parse_date`: try each format in
order, returning the first success.  `strptime s fmt` abstracts the
library call `datetime.strptime(s, fmt)` together with the UTC
defaulting and `isoformat()` call that follow it, with `none` standing
for the `ValueError` that the loop catches and skips. -/
def tryFormats (strptime : String → String → Option String) (s : String) :
    List String → Option String
  | [] => none
  | fmt :: rest =>
    match strptime s fmt with
    | some d => some d
    | none => tryFormats strptime s rest

/-- `parse_date` from `fetch.py`, parametrised by the library primitive
`strptime` and by the current time `now` (the value `now_iso()` would
return).  Empty input and total parse failure both fall back to `now`. -/
def parse_date (now : String) (strptime : String → String → Option String)
    (date_str : String) : String :=
  if date_str = "" then now
  else (tryFormats strptime date_str.trim DATE_FORMATS).getD now

/-! ## Definitions: deduplication, ranking and statistics -/

/-- The fields of a fetched item that the dedup / rank / stats pipeline
reads.  `traction_score` is modelled as a rational so the pipeline stays
executable; a missing `url` or `id` dictionary entry is the empty string
(the `item.get(..., "")` default in `deduplicate`). -/
structure Item where
  id : String
  url : String
  source : String
  traction_score : ℚ
deriving DecidableEq

/-- `MAX_TOTAL_ITEMS` from `fetch.py`. -/
def MAX_TOTAL_ITEMS : ℕ := 200

/-- The loop of `deduplicate`, with the two seen-sets made explicit
(modelled as lists): an item is skipped when its url or its id was
already seen, otherwise both are recorded and the item is kept. -/
def dedupGo : List Item → List String → List String → List Item
  | [], _, _ => []
  | item :: rest, seenUrls, seenIds =>
    if item.url ∈ seenUrls ∨ item.id ∈ seenIds then
      dedupGo rest seenUrls seenIds
    else
      item :: dedupGo rest (item.url :: seenUrls) (item.id :: seenIds)

/-- `deduplicate` from `fetch.py`: both seen-sets start empty. -/
def deduplicate (items : List Item) : List Item := dedupGo items [] []

/-- The ordering used by `all_items.sort(key=..., reverse=True)`:
descending by `traction_score`. -/
def byScoreDesc (x y : Item) : Bool := decide (y.traction_score ≤ x.traction_score)

/-- The ranking step of `main`: stable sort descending by
`traction_score` (Python's `list.sort` is stable, also under
`reverse=True`), then truncate to `MAX_TOTAL_ITEMS`. -/
def rank (items : List Item) : List Item :=
  (items.mergeSort byScoreDesc).take MAX_TOTAL_ITEMS

/-- The `scores` list built in `main` from the ranked items. -/
def scoresOf (items : List Item) : List ℚ :=
  items.map (fun i => i.traction_score)

/-- `max(scores) if scores else 0` from `main`. -/
def max_score (scores : List ℚ) : ℚ :=
  match scores with
  | [] => 0
  | s :: rest => rest.foldl max s

/-- `sorted(scores)[int(len(scores) * p)] if scores else 0`: the
index-based percentile of `main` (`p` is `0.75` or `0.90`). -/
def percentile (scores : List ℚ) (p : ℚ) : ℚ :=
  match scores with
  | [] => 0
  | _ :: _ =>
    (scores.mergeSort (fun a b => decide (a ≤ b))).getD
      ⌊p * (scores.length : ℚ)⌋.toNat 0

/-- The literal earliest-wins reading of claim C3: whenever two input
items collide on url or id, the later one never survives `deduplicate`. -/
def earliestWins (l : List Item) : Prop :=
  ∀ i j : Fin l.length, i < j →
    ((l.get i).url = (l.get j).url ∨ (l.get i).id = (l.get j).id) →
    l.get j ∉ deduplicate l

/-! ## Concrete items used by counterexamples and witnesses -/

/-- Counterexample input for C3: shares its url with `itemB`. -/
def itemA : Item := ⟨"a", "u", "hackernews", 0⟩

/-- Counterexample input for C3: url collides with `itemA`, id collides
with `itemC`. -/
def itemB : Item := ⟨"b", "u", "reddit", 0⟩

/-- Counterexample input for C3: id collides with `itemB`. -/
def itemC : Item := ⟨"b", "v", "github", 0⟩

/-- Counterexample input for C10: ordinary url, id shared with `itemQ`. -/
def itemP : Item := ⟨"k", "w", "news", 0⟩

/-- Counterexample input for C10: first empty-url item, its id collides
with `itemP`. -/
def itemQ : Item := ⟨"k", "", "news", 0⟩

/-- Counterexample input for C10: second empty-url item, fresh id. -/
def itemR : Item := ⟨"r", "", "news", 0⟩

/-- Witness item. -/
def itemW1 : Item := ⟨"w1", "uw1", "news", 5⟩

/-- Witness item tied in score with `itemW1`. -/
def itemW2 : Item := ⟨"w2", "uw2", "news", 5⟩

/-- Witness item with empty url. -/
def itemE1 : Item := ⟨"e1", "", "news", 0⟩

/-- Witness item with empty url and an id distinct from `itemE1`. -/
def itemE2 : Item := ⟨"e2", "", "news", 0⟩

/-! ## Lemmas about the scorer -/

/-- Unfolding lemma: when every `log1p` argument is `> -1` the score is
defined and equals the rounded raw score. -/
theorem cts_eq_some (source : String) {engagement comments ecap ccap : ℝ}
    (hours_old : ℝ)
    (h1 : -1 < min engagement ecap) (h2 : -1 < ecap)
    (h3 : -1 < min comments ccap) (h4 : -1 < ccap) :
    compute_traction_score source engagement comments hours_old ecap ccap
      = some (round2 (rawScore source engagement comments hours_old ecap ccap * 100)) := by
  unfold compute_traction_score log1p
  rw [if_pos h1, if_pos h2, if_pos h3, if_pos h4]
  simp only [Option.bind_some, Option.some.injEq, bind, Option.bind, rawScore]

/-- Every source string gets a weight between `0.5` and `1`. -/
theorem sourceWeight_bounds (s : String) :
    0.5 ≤ sourceWeight s ∧ sourceWeight s ≤ 1 := by
  unfold sourceWeight SOURCE_WEIGHTS
  simp only [List.lookup]
  repeat' split
  all_goals simp_all
  all_goals norm_num

/-- Cap-then-log normalisation of a nonnegative signal lies in `[0, 1]`. -/
theorem norm_bounds {x cap : ℝ} (hx : 0 ≤ x) (hcap : 0 < cap) :
    0 ≤ Real.log (1 + min x cap) / Real.log (1 + cap) ∧
      Real.log (1 + min x cap) / Real.log (1 + cap) ≤ 1 := by
  have hlogcap : 0 < Real.log (1 + cap) := Real.log_pos (by linarith)
  have h0 : 0 ≤ min x cap := le_min hx hcap.le
  have hnum0 : 0 ≤ Real.log (1 + min x cap) := Real.log_nonneg (by linarith)
  have hle : Real.log (1 + min x cap) ≤ Real.log (1 + cap) :=
    Real.log_le_log (by linarith) (by have := min_le_right x cap; linarith)
  exact ⟨div_nonneg hnum0 hlogcap.le, (div_le_one hlogcap).mpr hle⟩

/-- The recency factor lies in `(0, 1]` for every age. -/
theorem recency_bounds (a : ℝ) :
    0 < Real.exp (-0.693 * max a 0 / 12) ∧ Real.exp (-0.693 * max a 0 / 12) ≤ 1 := by
  refine ⟨Real.exp_pos _, Real.exp_le_one_iff.mpr ?_⟩
  have hm : 0 ≤ max a 0 := le_max_right a 0
  nlinarith

/-- `round` is monotone. -/
theorem round_mono_real {x y : ℝ} (h : x ≤ y) : round x ≤ round y := by
  rw [round_eq, round_eq]
  exact Int.floor_mono (by linarith)

/-- `round2` is monotone. -/
theorem round2_mono {x y : ℝ} (h : x ≤ y) : round2 x ≤ round2 y := by
  unfold round2
  have h1 : round (x * 100) ≤ round (y * 100) := round_mono_real (by linarith)
  have h2 : ((round (x * 100) : ℤ) : ℝ) ≤ ((round (y * 100) : ℤ) : ℝ) := by
    exact_mod_cast h1
  linarith

/-- `round2` maps `[0, 100]` into `[0, 100]`. -/
theorem round2_bounds {x : ℝ} (h0 : 0 ≤ x) (h1 : x ≤ 100) :
    0 ≤ round2 x ∧ round2 x ≤ 100 := by
  have hlo : (0 : ℤ) ≤ round (x * 100) := by
    have := round_mono_real (show (0 : ℝ) ≤ x * 100 by linarith)
    simpa using this
  have hhi : round (x * 100) ≤ 10000 := by
    have h : x * 100 ≤ ((10000 : ℤ) : ℝ) := by push_cast; linarith
    have := round_mono_real h
    simpa [round_intCast] using this
  constructor
  · unfold round2
    have : (0 : ℝ) ≤ ((round (x * 100) : ℤ) : ℝ) := by exact_mod_cast hlo
    linarith
  · unfold round2
    have : ((round (x * 100) : ℤ) : ℝ) ≤ 10000 := by exact_mod_cast hhi
    linarith

/-- The raw (unscaled, unrounded) score lies in `[0, 1]` on valid inputs. -/
theorem rawScore_bounds (source : String) {e c : ℝ} (a : ℝ) {ecap ccap : ℝ}
    (he : 0 ≤ e) (hc : 0 ≤ c) (hec : 0 < ecap) (hcc : 0 < ccap) :
    0 ≤ rawScore source e c a ecap ccap ∧ rawScore source e c a ecap ccap ≤ 1 := by
  obtain ⟨hw1, hw2⟩ := sourceWeight_bounds source
  obtain ⟨he1, he2⟩ := norm_bounds he hec
  obtain ⟨hc1, hc2⟩ := norm_bounds hc hcc
  obtain ⟨hr1, hr2⟩ := recency_bounds a
  unfold rawScore
  constructor <;> linarith

/-- The score is defined and lies in `[0, 100]` on valid inputs (shared
core of claims C1 and C9). -/
theorem score_defined_bounds (source : String) (e c a ecap ccap : ℝ)
    (he : 0 ≤ e) (hc : 0 ≤ c) (hec : 0 < ecap) (hcc : 0 < ccap) :
    ∃ v, compute_traction_score source e c a ecap ccap = some v ∧ 0 ≤ v ∧ v ≤ 100 := by
  have hmin1 : (-1 : ℝ) < min e ecap := lt_of_lt_of_le (by norm_num) (le_min he hec.le)
  have hmin2 : (-1 : ℝ) < min c ccap := lt_of_lt_of_le (by norm_num) (le_min hc hcc.le)
  have h := cts_eq_some source a hmin1 (by linarith) hmin2 (by linarith)
  refine ⟨_, h, ?_⟩
  obtain ⟨hb0, hb1⟩ := rawScore_bounds source a he hc hec hcc
  exact round2_bounds (by linarith) (by linarith)

/-- The raw score is antitone in the age. -/
theorem rawScore_mono_age (source : String) (e c : ℝ) {a a' : ℝ} (ecap ccap : ℝ)
    (ha : a ≤ a') :
    rawScore source e c a' ecap ccap ≤ rawScore source e c a ecap ccap := by
  unfold rawScore
  have hm : max a 0 ≤ max a' 0 := max_le_max ha le_rfl
  have hexp : Real.exp (-0.693 * max a' 0 / 12) ≤ Real.exp (-0.693 * max a 0 / 12) :=
    Real.exp_le_exp.mpr (by linarith)
  linarith

/-- The raw score is monotone in the engagement signal. -/
theorem rawScore_mono_eng (source : String) {e e' : ℝ} (c a : ℝ) {ecap : ℝ} (ccap : ℝ)
    (he : 0 ≤ e) (hee : e ≤ e') (hec : 0 < ecap) :
    rawScore source e c a ecap ccap ≤ rawScore source e' c a ecap ccap := by
  unfold rawScore
  have hlogcap : 0 < Real.log (1 + ecap) := Real.log_pos (by linarith)
  have h0 : 0 ≤ min e ecap := le_min he hec.le
  have hmin : min e ecap ≤ min e' ecap := min_le_min hee le_rfl
  have hlog : Real.log (1 + min e ecap) ≤ Real.log (1 + min e' ecap) :=
    Real.log_le_log (by linarith) (by linarith)
  have hdiv : Real.log (1 + min e ecap) / Real.log (1 + ecap)
      ≤ Real.log (1 + min e' ecap) / Real.log (1 + ecap) := by gcongr
  linarith

/-- The raw score is monotone in the discussion signal. -/
theorem rawScore_mono_cmt (source : String) (e : ℝ) {c c' : ℝ} (a : ℝ) (ecap : ℝ) {ccap : ℝ}
    (hc : 0 ≤ c) (hcc' : c ≤ c') (hcc : 0 < ccap) :
    rawScore source e c a ecap ccap ≤ rawScore source e c' a ecap ccap := by
  unfold rawScore
  have hlogcap : 0 < Real.log (1 + ccap) := Real.log_pos (by linarith)
  have h0 : 0 ≤ min c ccap := le_min hc hcc.le
  have hmin : min c ccap ≤ min c' ccap := min_le_min hcc' le_rfl
  have hlog : Real.log (1 + min c ccap) ≤ Real.log (1 + min c' ccap) :=
    Real.log_le_log (by linarith) (by linarith)
  have hdiv : Real.log (1 + min c ccap) / Real.log (1 + ccap)
      ≤ Real.log (1 + min c' ccap) / Real.log (1 + ccap) := by gcongr
  linarith

/-! ## Lemmas about `parse_date` -/

/-- If every format fails, the format loop yields nothing. -/
theorem tryFormats_eq_none (strptime : String → String → Option String)
    (s : String) :
    ∀ fmts : List String, (∀ fmt ∈ fmts, strptime s fmt = none) →
      tryFormats strptime s fmts = none
  | [], _ => rfl
  | fmt :: rest, h => by
    unfold tryFormats
    rw [h fmt (by simp)]
    exact tryFormats_eq_none strptime s rest fun f hf => h f (by simp [hf])

/-- The format loop either fails or returns the output of one of the
tried formats. -/
theorem tryFormats_cases (strptime : String → String → Option String)
    (s : String) :
    ∀ fmts : List String,
      tryFormats strptime s fmts = none ∨
        ∃ fmt ∈ fmts, ∃ d, strptime s fmt = some d ∧
          tryFormats strptime s fmts = some d
  | [] => Or.inl rfl
  | fmt :: rest => by
    unfold tryFormats
    cases h : strptime s fmt with
    | some d => exact Or.inr ⟨fmt, by simp, d, h, rfl⟩
    | none =>
      rcases tryFormats_cases strptime s rest with h' | ⟨f, hf, d, hd, h'⟩
      · exact Or.inl h'
      · exact Or.inr ⟨f, by simp [hf], d, hd, h'⟩

/-! ## Lemmas about `deduplicate` -/

/-- The kept items form a sublist (subsequence) of the input. -/
theorem dedupGo_sublist :
    ∀ (l : List Item) (us is : List String), List.Sublist (dedupGo l us is) l
  | [], _, _ => List.Sublist.refl []
  | item :: rest, us, is => by
    unfold dedupGo
    split
    · exact (dedupGo_sublist rest us is).cons item
    · exact (dedupGo_sublist rest (item.url :: us) (item.id :: is)).cons₂ item

/-- No kept item has a previously seen url or id. -/
theorem dedupGo_not_seen :
    ∀ (l : List Item) (us is : List String) (x : Item),
      x ∈ dedupGo l us is → x.url ∉ us ∧ x.id ∉ is
  | [], _, _, x, hx => by simp [dedupGo] at hx
  | item :: rest, us, is, x, hx => by
    unfold dedupGo at hx
    split at hx
    · exact dedupGo_not_seen rest us is x hx
    · rename_i hcond
      push_neg at hcond
      rcases List.mem_cons.mp hx with rfl | hx'
      · exact hcond
      · have := dedupGo_not_seen rest (item.url :: us) (item.id :: is) x hx'
        exact ⟨fun h => this.1 (by simp [h]), fun h => this.2 (by simp [h])⟩

/-- The kept items are pairwise distinct in url and in id. -/
theorem dedupGo_pairwise :
    ∀ (l : List Item) (us is : List String),
      (dedupGo l us is).Pairwise (fun x y => x.url ≠ y.url ∧ x.id ≠ y.id)
  | [], _, _ => List.Pairwise.nil
  | item :: rest, us, is => by
    unfold dedupGo
    split
    · exact dedupGo_pairwise rest us is
    · refine List.Pairwise.cons ?_ (dedupGo_pairwise rest _ _)
      intro y hy
      have := dedupGo_not_seen rest (item.url :: us) (item.id :: is) y hy
      exact ⟨fun h => this.1 (by simp [h.symm]), fun h => this.2 (by simp [h.symm])⟩

/-- A dropped item has its url or id among the seen sets, or collides
with an earlier kept item. -/
theorem dedupGo_dropped :
    ∀ (l₁ : List Item) (x : Item) (l₂ : List Item) (us is : List String),
      x ∉ dedupGo (l₁ ++ x :: l₂) us is →
        x.url ∈ us ∨ x.id ∈ is ∨
          ∃ y ∈ l₁, y ∈ dedupGo (l₁ ++ x :: l₂) us is ∧
            (y.url = x.url ∨ y.id = x.id)
  | [], x, l₂, us, is, hx => by
    simp only [List.nil_append] at hx ⊢
    unfold dedupGo at hx
    split at hx
    · rename_i hcond
      rcases hcond with h | h
      · exact Or.inl h
      · exact Or.inr (Or.inl h)
    · exact absurd (List.mem_cons_self x _) hx
  | z :: l₁, x, l₂, us, is, hx => by
    simp only [List.cons_append] at hx ⊢
    unfold dedupGo at hx ⊢
    split at hx
    · rename_i hcond
      rw [if_pos hcond]
      rcases dedupGo_dropped l₁ x l₂ us is hx with h | h | ⟨y, hy1, hy2, hy3⟩
      · exact Or.inl h
      · exact Or.inr (Or.inl h)
      · exact Or.inr (Or.inr ⟨y, List.mem_cons_of_mem z hy1, hy2, hy3⟩)
    · rename_i hcond
      rw [if_neg hcond]
      have hxtail : x ∉ dedupGo (l₁ ++ x :: l₂) (z.url :: us) (z.id :: is) := by
        intro h
        exact hx (List.mem_cons_of_mem z h)
      rcases dedupGo_dropped l₁ x l₂ (z.url :: us) (z.id :: is) hxtail
        with h | h | ⟨y, hy1, hy2, hy3⟩
      · rcases List.mem_cons.mp h with h' | h'
        · exact Or.inr (Or.inr ⟨z, List.mem_cons_self z l₁,
            List.mem_cons_self z _, Or.inl h'.symm⟩)
        · exact Or.inl h'
      · rcases List.mem_cons.mp h with h' | h'
        · exact Or.inr (Or.inr ⟨z, List.mem_cons_self z l₁,
            List.mem_cons_self z _, Or.inr h'.symm⟩)
        · exact Or.inr (Or.inl h')
      · exact Or.inr (Or.inr ⟨y, List.mem_cons_of_mem z hy1,
          List.mem_cons_of_mem z hy2, hy3⟩)

/-! ## Lemmas about ranking -/

theorem byScoreDesc_trans :
    ∀ a b c : Item, byScoreDesc a b → byScoreDesc b c → byScoreDesc a c := by
  intro a b c hab hbc
  simp only [byScoreDesc, decide_eq_true_eq] at hab hbc ⊢
  exact le_trans hbc hab

theorem byScoreDesc_total : ∀ a b : Item, byScoreDesc a b || byScoreDesc b a := by
  intro a b
  simp only [byScoreDesc, Bool.or_eq_true, decide_eq_true_eq]
  exact le_total _ _

/-- The ranked list is sorted by score, non-increasing. -/
theorem rank_sorted (items : List Item) :
    (rank items).Pairwise (fun x y => y.traction_score ≤ x.traction_score) := by
  have h := List.sorted_mergeSort byScoreDesc_trans byScoreDesc_total items
  have h' : (rank items).Pairwise (fun x y => byScoreDesc x y) :=
    h.sublist (List.take_sublist MAX_TOTAL_ITEMS _)
  exact h'.imp fun {a b} hab => by simpa [byScoreDesc] using hab

/-- Everything kept by the truncation scores at least as high as
everything discarded by it. -/
theorem rank_take_drop (items : List Item) :
    ∀ x ∈ rank items, ∀ y ∈ (items.mergeSort byScoreDesc).drop MAX_TOTAL_ITEMS,
      y.traction_score ≤ x.traction_score := by
  intro x hx y hy
  have hsorted := List.sorted_mergeSort byScoreDesc_trans byScoreDesc_total items
  rw [← List.take_append_drop MAX_TOTAL_ITEMS (items.mergeSort byScoreDesc)] at hsorted
  have := (List.pairwise_append.mp hsorted).2.2 x hx y hy
  simpa [byScoreDesc] using this

/-- Stability: two items listed in score order in the input stay in that
relative order in the sorted list. -/
theorem pair_sublist_sort {items : List Item} (l₁ : List Item) (x : Item)
    (l₂ : List Item) (y : Item) (l₃ : List Item)
    (heq : items = l₁ ++ x :: l₂ ++ y :: l₃)
    (hxy : y.traction_score ≤ x.traction_score) :
    List.Sublist [x, y] (items.mergeSort byScoreDesc) := by
  apply List.pair_sublist_mergeSort byScoreDesc_trans byScoreDesc_total
  · simpa [byScoreDesc] using hxy
  · subst heq
    have hx : List.Sublist [x] (l₁ ++ x :: l₂) :=
      List.sublist_append_of_sublist_right (List.Sublist.cons₂ x (List.nil_sublist l₂))
    have hy : List.Sublist [y] (y :: l₃) := List.Sublist.cons₂ y (List.nil_sublist l₃)
    exact hx.append hy

/-! ## Lemmas about the score statistics -/

theorem le_foldl_max :
    ∀ (rest : List ℚ) (s x : ℚ), (x ≤ s ∨ x ∈ rest) → x ≤ rest.foldl max s
  | [], _, _, h => by
    rcases h with h | h
    · exact h
    · simp at h
  | r :: rest, s, x, h => by
    simp only [List.foldl_cons]
    rcases h with h | h
    · exact le_foldl_max rest (max s r) x (Or.inl (le_trans h (le_max_left s r)))
    · rcases List.mem_cons.mp h with rfl | h'
      · exact le_foldl_max rest (max s x) x (Or.inl (le_max_right s x))
      · exact le_foldl_max rest (max s r) x (Or.inr h')

/-- `max_score` dominates every score in the list. -/
theorem le_max_score (scores : List ℚ) (x : ℚ) (hx : x ∈ scores) :
    x ≤ max_score scores := by
  cases scores with
  | nil => simp at hx
  | cons s rest =>
    unfold max_score
    rcases List.mem_cons.mp hx with rfl | h
    · exact le_foldl_max rest x x (Or.inl le_rfl)
    · exact le_foldl_max rest s x (Or.inr h)

theorem ascLE_trans :
    ∀ a b c : ℚ, (fun a b => decide (a ≤ b)) a b → (fun a b => decide (a ≤ b)) b c →
      (fun a b => decide (a ≤ b)) a c := by
  intro a b c hab hbc
  simp only [decide_eq_true_eq] at hab hbc ⊢
  exact le_trans hab hbc

theorem ascLE_total :
    ∀ a b : ℚ, (fun a b => decide (a ≤ b)) a b || (fun a b => decide (a ≤ b)) b a := by
  intro a b
  simp only [Bool.or_eq_true, decide_eq_true_eq]
  exact le_total _ _

/-- Reading a sorted list at a larger index gives a larger value. -/
theorem sorted_getD_mono {l : List ℚ} (hs : l.Pairwise (fun a b => a ≤ b))
    {i j : ℕ} (hij : i ≤ j) (hj : j < l.length) : l.getD i 0 ≤ l.getD j 0 := by
  rcases eq_or_lt_of_le hij with rfl | hlt
  · exact le_rfl
  · have hi : i < l.length := lt_trans hlt hj
    rw [List.getD_eq_getElem?_getD, List.getD_eq_getElem?_getD,
      List.getElem?_eq_getElem hi, List.getElem?_eq_getElem hj]
    simp only [Option.getD_some]
    have := List.pairwise_iff_get.mp hs ⟨i, hi⟩ ⟨j, hj⟩ (by exact hlt)
    simpa using this

/-- The percentile index `int(len * p)` is a valid index for `0 ≤ p < 1`
on a nonempty list. -/
theorem percentileIdx_lt {n : ℕ} (hn : 1 ≤ n) {p : ℚ} (hp0 : 0 ≤ p) (hp1 : p < 1) :
    ⌊p * (n : ℚ)⌋.toNat < n := by
  have hn' : (1 : ℚ) ≤ (n : ℚ) := by exact_mod_cast hn
  have h1 : (p * n : ℚ) < (n : ℚ) := by nlinarith
  have h2 : ⌊p * (n : ℚ)⌋ < (n : ℤ) := Int.floor_lt.mpr (by exact_mod_cast h1)
  have h3 : 0 ≤ ⌊p * (n : ℚ)⌋ := Int.floor_nonneg.mpr (by positivity)
  exact (Int.toNat_lt h3).mpr h2

/-- The percentile is one of the scores, for `0 ≤ p < 1` and a nonempty
list. -/
theorem percentile_mem (scores : List ℚ) {p : ℚ} (hp0 : 0 ≤ p) (hp1 : p < 1)
    (hne : scores ≠ []) : percentile scores p ∈ scores := by
  obtain ⟨s, rest, rfl⟩ := List.exists_cons_of_ne_nil hne
  unfold percentile
  have hn : 1 ≤ (s :: rest).length := by simp
  have hidx : ⌊p * ((s :: rest).length : ℚ)⌋.toNat
      < ((s :: rest).mergeSort (fun a b => decide (a ≤ b))).length := by
    rw [List.length_mergeSort]
    exact percentileIdx_lt hn hp0 hp1
  rw [List.getD_eq_getElem?_getD, List.getElem?_eq_getElem hidx]
  simp only [Option.getD_some]
  exact List.mem_mergeSort.mp (List.getElem_mem hidx)

/-- Percentiles are monotone in `p` (below `1`, on a nonempty list). -/
theorem percentile_le_percentile (scores : List ℚ) {p q : ℚ}
    (hp0 : 0 ≤ p) (hpq : p ≤ q) (hq : q < 1) (hne : scores ≠ []) :
    percentile scores p ≤ percentile scores q := by
  obtain ⟨s, rest, rfl⟩ := List.exists_cons_of_ne_nil hne
  unfold percentile
  have hn : 1 ≤ (s :: rest).length := by simp
  have hsorted : ((s :: rest).mergeSort (fun a b => decide (a ≤ b))).Pairwise
      (fun a b : ℚ => a ≤ b) := by
    have := List.sorted_mergeSort ascLE_trans ascLE_total (s :: rest)
    exact this.imp fun {a b} hab => by simpa using hab
  have hij : ⌊p * ((s :: rest).length : ℚ)⌋.toNat
      ≤ ⌊q * ((s :: rest).length : ℚ)⌋.toNat := by
    apply Int.toNat_le_toNat
    apply Int.floor_mono
    have : (0 : ℚ) ≤ ((s :: rest).length : ℚ) := by positivity
    nlinarith
  have hj : ⌊q * ((s :: rest).length : ℚ)⌋.toNat
      < ((s :: rest).mergeSort (fun a b => decide (a ≤ b))).length := by
    rw [List.length_mergeSort]
    exact percentileIdx_lt hn (le_trans hp0 hpq) hq
  exact sorted_getD_mono hsorted hij hj

/-! ## The claims -/

/-- C1: for every source string and all valid inputs (engagement ≥ 0,
comments ≥ 0, any age, positive caps), `compute_traction_score` succeeds
and returns a value in the closed interval `[0, 100]`. -/
theorem claim_C1_score_in_range (source : String) (e c a ecap ccap : ℝ)
    (he : 0 ≤ e) (hc : 0 ≤ c) (hec : 0 < ecap) (hcc : 0 < ccap) :
    ∃ v, compute_traction_score source e c a ecap ccap = some v ∧ 0 ≤ v ∧ v ≤ 100 :=
  score_defined_bounds source e c a ecap ccap he hc hec hcc

theorem claim_C1_witness :
    (0 : ℝ) ≤ 7 ∧ (0 : ℝ) ≤ 3 ∧ (0 : ℝ) < 5000 ∧ (0 : ℝ) < 500 ∧
      ∃ v, compute_traction_score "hackernews" 7 3 24 5000 500 = some v ∧
        0 ≤ v ∧ v ≤ 100 :=
  ⟨by norm_num, by norm_num, by norm_num, by norm_num,
    claim_C1_score_in_range "hackernews" 7 3 24 5000 500 (by norm_num) (by norm_num)
      (by norm_num) (by norm_num)⟩

/-- C2 counterexample: at engagement `-1` (a possible reddit score) the
call fails — `math.log1p(-1)` raises `ValueError` (modelled as `none`) —
so the call does have a failure mode, and in particular does not equal
the score with the negative count replaced by `0`. -/
theorem claim_C2_counterexample :
    compute_traction_score "reddit" (-1) 0 0 5000 500 = none ∧
      compute_traction_score "reddit" (-1) 0 0 5000 500 ≠
        compute_traction_score "reddit" 0 0 0 5000 500 := by
  have hnone : compute_traction_score "reddit" (-1) 0 0 5000 500 = none := by
    unfold compute_traction_score log1p
    rw [min_eq_left (by norm_num : (-1 : ℝ) ≤ 5000), if_neg (lt_irrefl (-1 : ℝ))]
    rfl
  have hsome := @cts_eq_some "reddit" 0 0 5000 500 0
    (lt_min (by norm_num) (by norm_num)) (by norm_num)
    (lt_min (by norm_num) (by norm_num)) (by norm_num)
  refine ⟨hnone, ?_⟩
  rw [hnone, hsome]
  simp

/-- C2 (amended): `compute_traction_score` is deterministic but does
have a failure mode: with positive caps it fails whenever engagement or
comments is `≤ -1` (Python `math.log1p` domain error) — negative counts
are not substituted by zero — while on nonnegative counts the call never
fails. -/
theorem claim_C2_amended (source : String) (e c a ecap ccap : ℝ)
    (hec : 0 < ecap) (hcc : 0 < ccap) :
    ((e ≤ -1 ∨ c ≤ -1) → compute_traction_score source e c a ecap ccap = none) ∧
      (0 ≤ e → 0 ≤ c → ∃ v, compute_traction_score source e c a ecap ccap = some v) := by
  constructor
  · intro h
    rcases h with h | h
    · unfold compute_traction_score log1p
      rw [min_eq_left (by linarith : e ≤ ecap), if_neg (by linarith : ¬(-1 : ℝ) < e)]
      rfl
    · unfold compute_traction_score log1p
      rw [min_eq_left (by linarith : c ≤ ccap)]
      rw [if_neg (by linarith : ¬(-1 : ℝ) < c)]
      split
      · split
        · rfl
        · rfl
      · rfl
  · intro he hc
    obtain ⟨v, hv, -⟩ := score_defined_bounds source e c a ecap ccap he hc hec hcc
    exact ⟨v, hv⟩

theorem claim_C2_witness :
    ((-2 : ℝ) ≤ -1 ∨ (0 : ℝ) ≤ -1) ∧
      compute_traction_score "reddit" (-2) 0 12 5000 500 = none :=
  ⟨Or.inl (by norm_num),
    (claim_C2_amended "reddit" (-2) 0 12 5000 500 (by norm_num) (by norm_num)).1
      (Or.inl (by norm_num))⟩

/-- C3 counterexample: in `[itemA, itemB, itemC]` the items `itemB` and
`itemC` collide on id, yet the later one (`itemC`) is the one retained —
`itemB` was dropped for its url before its id was ever recorded.  So
"the earliest of the colliding items is the one retained" fails. -/
theorem claim_C3_counterexample : ¬ earliestWins [itemA, itemB, itemC] := by
  unfold earliestWins
  decide

/-- C3 (amended): `deduplicate` keeps a subsequence of its input in which
no two items share a url and no two share an id, and every dropped item
shares its url or its id with some retained item occurring strictly
earlier in the input; the retained one of a colliding pair need not be
the earliest colliding item, only the earliest whose url and id were
both still unseen. -/
theorem claim_C3_amended (items : List Item) :
    List.Sublist (deduplicate items) items ∧
      (deduplicate items).Pairwise (fun x y => x.url ≠ y.url ∧ x.id ≠ y.id) ∧
      ∀ l₁ x l₂, items = l₁ ++ x :: l₂ → x ∉ deduplicate items →
        ∃ y ∈ l₁, y ∈ deduplicate items ∧ (y.url = x.url ∨ y.id = x.id) := by
  unfold deduplicate
  refine ⟨dedupGo_sublist items [] [], dedupGo_pairwise items [] [], ?_⟩
  intro l₁ x l₂ heq hx
  subst heq
  rcases dedupGo_dropped l₁ x l₂ [] [] hx with h | h | ⟨y, hy1, hy2, hy3⟩
  · simp at h
  · simp at h
  · exact ⟨y, hy1, hy2, hy3⟩

theorem claim_C3_witness :
    itemB ∉ deduplicate [itemA, itemB, itemC] ∧
      ∃ y ∈ [itemA], y ∈ deduplicate [itemA, itemB, itemC] ∧
        (y.url = itemB.url ∨ y.id = itemB.id) :=
  ⟨by decide,
    (claim_C3_amended [itemA, itemB, itemC]).2.2 [itemA] itemB [itemC] rfl (by decide)⟩

/-- C4: the ranking step sorts by `traction_score` in non-increasing
order, keeps at most `MAX_TOTAL_ITEMS = 200` items, is a stable
permutation of the deduplicated input (ties keep their input order), and
truncates only after sorting, so every retained item scores at least as
high as every discarded item. -/
theorem claim_C4_rank_props (items : List Item) :
    (rank items).Pairwise (fun x y => y.traction_score ≤ x.traction_score) ∧
      (rank items).length ≤ MAX_TOTAL_ITEMS ∧
      List.Perm (items.mergeSort byScoreDesc) items ∧
      (∀ l₁ x l₂ y l₃, items = l₁ ++ x :: l₂ ++ y :: l₃ →
        y.traction_score ≤ x.traction_score →
        List.Sublist [x, y] (items.mergeSort byScoreDesc)) ∧
      ∀ x ∈ rank items, ∀ y ∈ (items.mergeSort byScoreDesc).drop MAX_TOTAL_ITEMS,
        y.traction_score ≤ x.traction_score := by
  refine ⟨rank_sorted items, ?_, List.mergeSort_perm items byScoreDesc, ?_,
    rank_take_drop items⟩
  · unfold rank
    rw [List.length_take]
    exact min_le_left _ _
  · intro l₁ x l₂ y l₃ heq hxy
    exact pair_sublist_sort l₁ x l₂ y l₃ heq hxy

theorem claim_C4_witness :
    itemW2.traction_score ≤ itemW1.traction_score ∧
      List.Sublist [itemW1, itemW2] ([itemW1, itemW2].mergeSort byScoreDesc) :=
  ⟨by decide,
    (claim_C4_rank_props [itemW1, itemW2]).2.2.2.1 [] itemW1 [] itemW2 [] rfl (by decide)⟩

/-- C5: the statistics over the (ranked, truncated) score list follow the
index rule `sorted_scores[int(len * p)]`: on the empty set all three are
`0`, and on a non-empty set `p75 ≤ p90 ≤ max`. -/
theorem claim_C5_stats (items : List Item) :
    (scoresOf (rank items) = [] →
      max_score (scoresOf (rank items)) = 0 ∧
        percentile (scoresOf (rank items)) (3 / 4) = 0 ∧
        percentile (scoresOf (rank items)) (9 / 10) = 0) ∧
      (scoresOf (rank items) ≠ [] →
        percentile (scoresOf (rank items)) (3 / 4)
            ≤ percentile (scoresOf (rank items)) (9 / 10) ∧
          percentile (scoresOf (rank items)) (9 / 10)
            ≤ max_score (scoresOf (rank items))) := by
  constructor
  · intro h
    rw [h]
    exact ⟨rfl, rfl, rfl⟩
  · intro h
    refine ⟨percentile_le_percentile _ (by norm_num) (by norm_num) (by norm_num) h, ?_⟩
    exact le_max_score _ _ (percentile_mem _ (by norm_num) (by norm_num) h)

theorem claim_C5_witness :
    scoresOf (rank [itemW1]) ≠ [] ∧
      percentile (scoresOf (rank [itemW1])) (3 / 4)
          ≤ percentile (scoresOf (rank [itemW1])) (9 / 10) ∧
        percentile (scoresOf (rank [itemW1])) (9 / 10)
          ≤ max_score (scoresOf (rank [itemW1])) := by
  have h1 : rank [itemW1] = [itemW1] := by
    unfold rank MAX_TOTAL_ITEMS
    rw [List.mergeSort_singleton, List.take_of_length_le (by norm_num)]
  have hne : scoresOf (rank [itemW1]) ≠ [] := by
    rw [h1]
    simp [scoresOf]
  exact ⟨hne, (claim_C5_stats [itemW1]).2 hne⟩

/-- C6: holding other arguments fixed (on valid inputs), the score is
non-increasing in the age and non-decreasing in each of the engagement
and comments signals. -/
theorem claim_C6_monotone (source : String) (ecap ccap e f c d a b : ℝ)
    (hec : 0 < ecap) (hcc : 0 < ccap)
    (he : 0 ≤ e) (hef : e ≤ f) (hc : 0 ≤ c) (hcd : c ≤ d) (hab : a ≤ b) :
    (∀ v w, compute_traction_score source e c a ecap ccap = some v →
      compute_traction_score source e c b ecap ccap = some w → w ≤ v) ∧
      (∀ v w, compute_traction_score source e c a ecap ccap = some v →
        compute_traction_score source f c a ecap ccap = some w → v ≤ w) ∧
      ∀ v w, compute_traction_score source e c a ecap ccap = some v →
        compute_traction_score source e d a ecap ccap = some w → v ≤ w := by
  have hme : (-1 : ℝ) < min e ecap := lt_min (by linarith) (by linarith)
  have hmf : (-1 : ℝ) < min f ecap := lt_min (by linarith) (by linarith)
  have hmc : (-1 : ℝ) < min c ccap := lt_min (by linarith) (by linarith)
  have hmd : (-1 : ℝ) < min d ccap := lt_min (by linarith) (by linarith)
  refine ⟨?_, ?_, ?_⟩
  · intro v w hv hw
    rw [@cts_eq_some source e c ecap ccap a hme (by linarith) hmc (by linarith)] at hv
    rw [@cts_eq_some source e c ecap ccap b hme (by linarith) hmc (by linarith)] at hw
    rw [← Option.some.inj hv, ← Option.some.inj hw]
    have := rawScore_mono_age source e c ecap ccap hab
    exact round2_mono (by linarith)
  · intro v w hv hw
    rw [@cts_eq_some source e c ecap ccap a hme (by linarith) hmc (by linarith)] at hv
    rw [@cts_eq_some source f c ecap ccap a hmf (by linarith) hmc (by linarith)] at hw
    rw [← Option.some.inj hv, ← Option.some.inj hw]
    have := rawScore_mono_eng source c a ccap he hef hec
    exact round2_mono (by linarith)
  · intro v w hv hw
    rw [@cts_eq_some source e c ecap ccap a hme (by linarith) hmc (by linarith)] at hv
    rw [@cts_eq_some source e d ecap ccap a hme (by linarith) hmd (by linarith)] at hw
    rw [← Option.some.inj hv, ← Option.some.inj hw]
    have := rawScore_mono_cmt source e a ecap hc hcd hcc
    exact round2_mono (by linarith)

theorem claim_C6_witness :
    (0 : ℝ) ≤ 10 ∧ (10 : ℝ) ≤ 20 ∧ (0 : ℝ) ≤ 3 ∧ (3 : ℝ) ≤ 4 ∧ (1 : ℝ) ≤ 48 ∧
      (∀ v w, compute_traction_score "news" 10 3 1 5000 500 = some v →
        compute_traction_score "news" 10 3 48 5000 500 = some w → w ≤ v) ∧
      (∀ v w, compute_traction_score "news" 10 3 1 5000 500 = some v →
        compute_traction_score "news" 20 3 1 5000 500 = some w → v ≤ w) ∧
      ∀ v w, compute_traction_score "news" 10 3 1 5000 500 = some v →
        compute_traction_score "news" 10 4 1 5000 500 = some w → v ≤ w :=
  ⟨by norm_num, by norm_num, by norm_num, by norm_num, by norm_num,
    claim_C6_monotone "news" 5000 500 10 20 3 4 1 48 (by norm_num) (by norm_num)
      (by norm_num) (by norm_num) (by norm_num) (by norm_num) (by norm_num)⟩

/-- C7: the score saturates at the caps: any two engagement values at or
above `engagement_cap` give identical results (other arguments fixed),
and likewise for comments values at or above `comments_cap`. -/
theorem claim_C7_saturation (source : String) (y a ecap ccap e f c d : ℝ)
    (he : ecap ≤ e) (hf : ecap ≤ f) (hc : ccap ≤ c) (hd : ccap ≤ d) :
    compute_traction_score source e y a ecap ccap
        = compute_traction_score source f y a ecap ccap ∧
      compute_traction_score source y c a ecap ccap
        = compute_traction_score source y d a ecap ccap := by
  constructor
  · unfold compute_traction_score
    rw [min_eq_right he, min_eq_right hf]
  · unfold compute_traction_score
    rw [min_eq_right hc, min_eq_right hd]

theorem claim_C7_witness :
    (5000 : ℝ) ≤ 5000 ∧ (5000 : ℝ) ≤ 50000 ∧
      compute_traction_score "github" 5000 3 0 5000 500
        = compute_traction_score "github" 50000 3 0 5000 500 :=
  ⟨le_refl _, by norm_num,
    (claim_C7_saturation "github" 3 0 5000 500 5000 50000 500 500
      (le_refl _) (by norm_num) (le_refl _) (le_refl _)).1⟩

/-- C8: `parse_date` is total — it either returns the value produced by
one of the formats in the fixed ordered list, or falls back to the
current time; in particular an empty or unparseable date string yields
the processing timestamp `now` rather than an error. -/
theorem claim_C8_parse_date (now : String)
    (strptime : String → String → Option String) (date_str : String) :
    (parse_date now strptime date_str = now ∨
      ∃ fmt ∈ DATE_FORMATS, ∃ d, strptime date_str.trim fmt = some d ∧
        parse_date now strptime date_str = d) ∧
      ((date_str = "" ∨ ∀ fmt ∈ DATE_FORMATS, strptime date_str.trim fmt = none) →
        parse_date now strptime date_str = now) := by
  constructor
  · unfold parse_date
    split
    · exact Or.inl rfl
    · rcases tryFormats_cases strptime date_str.trim DATE_FORMATS
        with h | ⟨f, hf, d, hd, h⟩
      · rw [h]
        exact Or.inl rfl
      · rw [h]
        exact Or.inr ⟨f, hf, d, hd, rfl⟩
  · intro h
    unfold parse_date
    split
    · rfl
    · rename_i hne
      rcases h with h | h
      · exact absurd h hne
      · rw [tryFormats_eq_none strptime date_str.trim DATE_FORMATS h]
        rfl

theorem claim_C8_witness :
    (∀ fmt ∈ DATE_FORMATS,
      (fun _ _ => (none : Option String)) "not a date".trim fmt = none) ∧
      parse_date "T0" (fun _ _ => none) "not a date" = "T0" := by
  have h : ∀ fmt ∈ DATE_FORMATS,
      (fun _ _ => (none : Option String)) "not a date".trim fmt = none := by
    intro fmt _
    rfl
  exact ⟨h, (claim_C8_parse_date "T0" (fun _ _ => none) "not a date").2 (Or.inr h)⟩

/-- C9: `compute_traction_score` is total over arbitrary source strings —
any source outside the configured five falls back to the default weight
`0.5` and still yields a score in `[0, 100]` on valid inputs. -/
theorem claim_C9_unknown_source (source : String)
    (hs : source ∉ ["hackernews", "reddit", "github", "youtube", "news"]) :
    sourceWeight source = 0.5 ∧
      ∀ e c a : ℝ, 0 ≤ e → 0 ≤ c →
        ∃ v, compute_traction_score source e c a 5000 500 = some v ∧
          0 ≤ v ∧ v ≤ 100 := by
  have h5 : ¬(source = "hackernews" ∨ source = "reddit" ∨ source = "github"
      ∨ source = "youtube" ∨ source = "news") := by simpa using hs
  push_neg at h5
  obtain ⟨h1, h2, h3, h4, h5'⟩ := h5
  constructor
  · have e1 : (source == "hackernews") = false := beq_eq_false_iff_ne.mpr h1
    have e2 : (source == "reddit") = false := beq_eq_false_iff_ne.mpr h2
    have e3 : (source == "github") = false := beq_eq_false_iff_ne.mpr h3
    have e4 : (source == "youtube") = false := beq_eq_false_iff_ne.mpr h4
    have e5 : (source == "news") = false := beq_eq_false_iff_ne.mpr h5'
    unfold sourceWeight SOURCE_WEIGHTS
    simp [List.lookup, e1, e2, e3, e4, e5]
  · intro e c a he hc
    exact score_defined_bounds source e c a 5000 500 he hc (by norm_num) (by norm_num)

theorem claim_C9_witness :
    "blog" ∉ ["hackernews", "reddit", "github", "youtube", "news"] ∧
      sourceWeight "blog" = 0.5 ∧
      ∀ e c a : ℝ, 0 ≤ e → 0 ≤ c →
        ∃ v, compute_traction_score "blog" e c a 5000 500 = some v ∧
          0 ≤ v ∧ v ≤ 100 := by
  have h : "blog" ∉ ["hackernews", "reddit", "github", "youtube", "news"] := by
    decide
  exact ⟨h, claim_C9_unknown_source "blog" h⟩

/-- C10 counterexample: in `[itemP, itemQ, itemR]` the first empty-url
item (`itemQ`) is dropped — its id collides with the retained `itemP` —
while the later empty-url item `itemR` survives, so "only the first
empty-url item survives" fails. -/
theorem claim_C10_counterexample :
    itemP.url ≠ "" ∧ itemQ.url = "" ∧ itemR.url = "" ∧ itemQ.id ≠ itemR.id ∧
      itemQ ∉ deduplicate [itemP, itemQ, itemR] ∧
      itemR ∈ deduplicate [itemP, itemQ, itemR] := by
  decide

/-- C10 (amended): the empty-string url is treated as an ordinary url
value, so at most one item whose url is empty survives `deduplicate`,
even when the empty-url items have pairwise distinct ids; the survivor
is the earliest empty-url item not blocked by an id collision (not
necessarily the first empty-url item of the input). -/
theorem claim_C10_amended (items : List Item) (x y : Item)
    (hx : x ∈ deduplicate items) (hy : y ∈ deduplicate items)
    (hxu : x.url = "") (hyu : y.url = "") : x = y := by
  by_contra hne
  have hpair := dedupGo_pairwise items [] []
  have hsym : Symmetric (fun v w : Item => v.url ≠ w.url ∧ v.id ≠ w.id) :=
    fun v w h => ⟨h.1.symm, h.2.symm⟩
  unfold deduplicate at hx hy
  have := (hpair.forall hsym) hx hy hne
  exact this.1 (by rw [hxu, hyu])

theorem claim_C10_witness :
    itemE1 ∈ deduplicate [itemE1, itemE2] ∧ itemE1.url = "" ∧ itemE1 = itemE1 :=
  ⟨by decide, rfl,
    claim_C10_amended [itemE1, itemE2] itemE1 itemE1 (by decide) (by decide) rfl rfl⟩

end Abratronix
